import Mathlib

/-!
Verification of the JSON property workflow of the PropertyManager class and
of the material/geometry batching of the IFCParser class of web-ifc-three.

A model's jsonData table is an association list from express id to record.
A record is an association list from field name to field value.  A field
value is a primitive, a typed-value pair of a numeric type tag and a
numeric value (a reference when the tag is 5), an array, or a nested
object; nested objects arise from recursive reference expansion.  The
JavaScript value `undefined` that appears when reading `.value` from a
non-reference is modelled as `Option.none`.
-/

namespace WebIfc

deriving instance DecidableEq for Except

/-- A JSON field value as used by the jsonData records of an IFC model. -/
inductive JVal where
  | str (s : String)
  | num (n : Int)
  | tv (t : Nat) (v : Nat)
  | arr (xs : List JVal)
  | obj (fs : List (String × JVal))

/-- A jsonData record: association list of field name to value. -/
abbrev JObj := List (String × JVal)

/-- Read a field of a record; `none` models the JavaScript `undefined`. -/
def getField : JObj → String → Option JVal
  | [], _ => none
  | (k, v) :: rest, key => if k = key then some v else getField rest key

/-- JavaScript property access `x.value`: a typed-value pair yields its
numeric value, anything else yields `undefined` (modelled `none`). -/
def jsValueOf : JVal → Option Nat
  | .tv _ v => some v
  | _ => none

/-- `data[id]` followed by object spread: a missing record spreads to the
empty object. -/
def fetchRec : List (Nat × JObj) → Nat → JObj
  | [], _ => []
  | (i, r) :: rest, id => if i = id then r else fetchRec rest id

/-- `data[id]` where the key itself may be the JavaScript `undefined`. -/
def fetchRecO (data : List (Nat × JObj)) : Option Nat → JObj
  | none => []
  | some id => fetchRec data id

/-- JavaScript String.prototype.toUpperCase as used on the ASCII type
names of the records (character-wise upper-casing). -/
def jsToUpperCase (s : String) : String :=
  String.mk (s.data.map Char.toUpper)

/-- `data[numKey].type.toUpperCase()` of filterJSONItemsByType; a record
whose type field is not a string is mapped to the empty string (the
claims only exercise records carrying a string type name). -/
def recTypeUpper (r : JObj) : String :=
  match getField r "type" with
  | some (.str s) => jsToUpperCase s
  | _ => ""

/-- filterJSONItemsByType with verbose = false: the matching express ids,
in jsonData iteration order. -/
def filterIdsByType (data : List (Nat × JObj)) (typeName : String) : List Nat :=
  (data.filter fun p => recTypeUpper p.2 == typeName).map (·.1)

/-- filterJSONItemsByType with verbose = true: the matching records, in
jsonData iteration order. -/
def filterRecsByType (data : List (Nat × JObj)) (typeName : String) : List JObj :=
  (data.filter fun p => recTypeUpper p.2 == typeName).map (·.2)

/-- Modelled from the spec: the type-classification lookup id to typeName
(the IfcTypesMap dictionary, which is not under src) is an abstract map
from numeric type ids to type names. -/
abbrev TypesMap := Nat → Option String

/-- getAllItemsOfTypeJSON, verbose = false: throws `Type not found` when
the classification lookup misses, otherwise returns the matching ids. -/
def getAllItemsOfTypeJSONIds (tm : TypesMap) (data : List (Nat × JObj)) (type : Nat) :
    Except String (List Nat) :=
  match tm type with
  | none => .error ("Type not found: " ++ toString type)
  | some typeName => .ok (filterIdsByType data typeName)

/-- getAllItemsOfTypeJSON, verbose = true: throws `Type not found` when
the classification lookup misses, otherwise returns the matching records. -/
def getAllItemsOfTypeJSONVerbose (tm : TypesMap) (data : List (Nat × JObj)) (type : Nat) :
    Except String (List JObj) :=
  match tm type with
  | none => .error ("Type not found: " ++ toString type)
  | some typeName => .ok (filterRecsByType data typeName)

/-- getAllItemsOfTypeJSON with its verbose flag, result shape as in the
source: ids when verbose is false, full records when verbose is true. -/
def getAllItemsOfTypeJSON (tm : TypesMap) (data : List (Nat × JObj)) (type : Nat)
    (verbose : Bool) : Except String (List Nat ⊕ List JObj) :=
  match tm type with
  | none => .error ("Type not found: " ++ toString type)
  | some typeName =>
      .ok (if verbose then .inr (filterRecsByType data typeName)
           else .inl (filterIdsByType data typeName))

/-- The incremental-query record store consumed by the WebIfcAPI code
path: GetLineIDsWithType and GetLine, per the external-interface section
of the spec. -/
structure WebIfcAPI where
  GetLineIDsWithType : Nat → Nat → List Nat
  GetLine : Nat → Nat → JObj

/-- getAllItemsOfTypeWebIfcAPI: queries the store directly, performs no
type-classification lookup, and has no throw path (the Except result type
records that no error is ever produced). -/
def getAllItemsOfTypeWebIfcAPI (api : WebIfcAPI) (modelID type : Nat) (verbose : Bool) :
    Except String (List Nat ⊕ List JObj) :=
  let items := api.GetLineIDsWithType modelID type
  if verbose then .ok (.inr (items.map (api.GetLine modelID)))
  else .ok (.inl items)

/-- The pName relation descriptors of BaseDefinitions (not under src).
Modelled from the spec: a RelationDescriptor carries the relation type id
and the relating / related field names; the key names the node field the
tree builder writes (`children` for both spatial relation kinds). -/
structure pName where
  name : Nat
  relating : String
  related : String
  key : String

/-- Numeric type ids of the relation and project types, as provided by
the external web-ifc constants (not under src; exact values irrelevant). -/
def IFCPROJECT : Nat := 103090709

def IFCRELAGGREGATES : Nat := 160246688

def IFCRELCONTAINEDINSPATIALSTRUCTURE : Nat := 3242617779

def IFCRELDEFINESBYPROPERTIES : Nat := 4186316022

/-- PropsNames.aggregates, modelled from the spec (BaseDefinitions is not
under src): relating field RelatingObject, related field RelatedObjects,
tree key children. -/
def pAggregates : pName :=
  ⟨IFCRELAGGREGATES, "RelatingObject", "RelatedObjects", "children"⟩

/-- PropsNames.spatial, modelled from the spec. -/
def pSpatial : pName :=
  ⟨IFCRELCONTAINEDINSPATIALSTRUCTURE, "RelatingStructure", "RelatedElements", "children"⟩

/-- PropsNames.psets, modelled from the spec. -/
def pPsets : pName :=
  ⟨IFCRELDEFINESBYPROPERTIES, "RelatingPropertyDefinition", "RelatedObjects", "hasPsets"⟩

/-- The treeChunks object: JavaScript object keyed by the relating id
(the key `none` models the string key "undefined" that arises when the
relating field is not a reference); each entry is the ordered list of
`.value` reads of the related array's elements. -/
abbrev ChunkMap := List (Option Nat × List (Option Nat))

/-- Object property read on the chunk map. -/
def lookupC : ChunkMap → Option Nat → Option (List (Option Nat))
  | [], _ => none
  | (k, vs) :: rest, key => if k = key then some vs else lookupC rest key

/-- Object property write on the chunk map: replaces the entry when the
key is present, otherwise adds it (JavaScript key insertion order). -/
def setC : ChunkMap → Option Nat → List (Option Nat) → ChunkMap
  | [], key, vs => [(key, vs)]
  | (k, old) :: rest, key, vs =>
      if k = key then (key, vs) :: rest else (k, old) :: setC rest key vs

/-- saveChunk: reads `rel[relating].value` (TypeError when the field is
missing), then `rel[related].map(r => r.value)` (TypeError when the field
is missing or is not an array), then creates or concatenates the chunk
entry under the relating key. -/
def saveChunk (pn : pName) (chunks : ChunkMap) (rel : JObj) : Except String ChunkMap :=
  match getField rel pn.relating with
  | none => .error "TypeError: cannot read property value of undefined"
  | some relatingVal =>
      match getField rel pn.related with
      | none => .error "TypeError: cannot read property map of undefined"
      | some (.arr xs) =>
          let relating := jsValueOf relatingVal
          let related := xs.map jsValueOf
          .ok (match lookupC chunks relating with
               | none => chunks ++ [(relating, related)]
               | some old => setC chunks relating (old ++ related))
      | some _ => .error "TypeError: rel related map is not a function"

/-- The relating key saveChunk files a well-formed relation record under. -/
def relKeyT (pn : pName) (rel : JObj) : Option Nat :=
  match getField rel pn.relating with
  | some v => jsValueOf v
  | none => none

/-- The related ids saveChunk appends for a well-formed relation record. -/
def relIdsT (pn : pName) (rel : JObj) : List (Option Nat) :=
  match getField rel pn.related with
  | some (.arr xs) => xs.map jsValueOf
  | _ => []

/-- Total restriction of saveChunk to records it does not throw on. -/
def saveChunkT (pn : pName) (chunks : ChunkMap) (rel : JObj) : ChunkMap :=
  let relating := relKeyT pn rel
  let related := relIdsT pn rel
  match lookupC chunks relating with
  | none => chunks ++ [(relating, related)]
  | some old => setC chunks relating (old ++ related)

/-- A relation record with a reference-valued relating field and an
array-valued related field (the shape saveChunk handles without a
TypeError). -/
def wfRelB (pn : pName) (rel : JObj) : Bool :=
  (match getField rel pn.relating with
   | some (.tv _ _) => true
   | _ => false) &&
  (match getField rel pn.related with
   | some (.arr _) => true
   | _ => false)

/-- The record shape on which saveChunk does not throw: the relating
field present, the related field an array. -/
def chunkOkB (pn : pName) (rel : JObj) : Bool :=
  (getField rel pn.relating).isSome &&
  (match getField rel pn.related with
   | some (.arr _) => true
   | _ => false)

/-- getChunksJSON: fold saveChunk over all records of the relation type,
into the chunk map passed by the caller. -/
def getChunksJSON (tm : TypesMap) (data : List (Nat × JObj)) (chunks : ChunkMap)
    (pn : pName) : Except String ChunkMap := do
  let relation ← getAllItemsOfTypeJSONVerbose tm data pn.name
  relation.foldlM (saveChunk pn) chunks

/-- getSpatialTreeChunks, JSON path: one shared chunk map, filled from
the aggregates relation records first, then from the spatial ones. -/
def getSpatialTreeChunks (tm : TypesMap) (data : List (Nat × JObj)) :
    Except String ChunkMap := do
  let m1 ← getChunksJSON tm data [] pAggregates
  getChunksJSON tm data m1 pSpatial

/-- A tree node of the spatial structure.  The express id is optional:
indexing an empty project-id list with `[0]` yields the JavaScript
`undefined`, which flows into the root node unchanged. -/
inductive Node where
  | mk (expressID : Option Nat) (type : String) (children : List Node)

def Node.expressID : Node → Option Nat
  | .mk e _ _ => e

def Node.type : Node → String
  | .mk _ t _ => t

def Node.children : Node → List Node
  | .mk _ _ cs => cs

def Node.withChildren : Node → List Node → Node
  | .mk e t _, cs => .mk e t cs

/-- getNodeType on the JSON path: `jsonData[id].type` (a missing record
or non-string type field is mapped to the empty string; the claims only
exercise ids whose records are present). -/
def getNodeType (data : List (Nat × JObj)) (id : Option Nat) : String :=
  match getField (fetchRecO data id) "type" with
  | some (.str s) => s
  | _ => ""

/-- newNode: a fresh node for a discovered child id. -/
def newNode (data : List (Nat × JObj)) (id : Option Nat) : Node :=
  .mk id (getNodeType data id) []

/-- newIfcProject: the root node. -/
def newIfcProject (id : Option Nat) : Node :=
  .mk id "IFCPROJECT" []

mutual

/-- getSpatialNode with fuel: the source recursion has no cycle guard, so
it is embedded with a fuel argument; `none` means the recursion did not
complete within the given fuel.  getSpatialNode runs getChildren twice,
once for the aggregates descriptor and once for the spatial one; both
passes read the same combined chunk map entry and both assign the node's
children field (both descriptors carry the key `children`), so the second
pass overwrites the first with an identically rebuilt list. -/
def getSpatialNodeFuel (data : List (Nat × JObj)) (chunks : ChunkMap) :
    Nat → Node → Option Node
  | 0, _ => none
  | n + 1, node => do
      let node1 ← getChildrenPass data chunks n node
      getChildrenPass data chunks n node1

/-- One getChildren call: look up the chunk entry of the node's id;
absent means leaf, otherwise rebuild the children list. -/
def getChildrenPass (data : List (Nat × JObj)) (chunks : ChunkMap) :
    Nat → Node → Option Node
  | 0, _ => none
  | n + 1, node =>
      match lookupC chunks node.expressID with
      | none => some node
      | some childIds =>
          (buildChildren data chunks n childIds).map (fun cs => node.withChildren cs)

/-- children.map over the chunk entry: a new node per child id, then the
recursive getSpatialNode call on it. -/
def buildChildren (data : List (Nat × JObj)) (chunks : ChunkMap) :
    Nat → List (Option Nat) → Option (List Node)
  | 0, _ => none
  | _ + 1, [] => some []
  | n + 1, cid :: rest => do
      let c ← getSpatialNodeFuel data chunks n (newNode data cid)
      let cs ← buildChildren data chunks n rest
      pure (c :: cs)

end

/-- getSpatialStructureJSON: build the shared chunk map, take the first
project-type id in record order (`[0]` on the id list, `none` when the
list is empty), seed the root and run the tree recursion.  The outer
Except carries the JavaScript throw paths of the chunk building and of
the project lookup; the inner Option is the recursion fuel. -/
def getSpatialStructureJSONFuel (tm : TypesMap) (data : List (Nat × JObj))
    (fuel : Nat) : Except String (Option Node) := do
  let chunks ← getSpatialTreeChunks tm data
  let projectIDs ← getAllItemsOfTypeJSONIds tm data IFCPROJECT
  let project := newIfcProject projectIDs.head?
  pure (getSpatialNodeFuel data chunks fuel project)

/-- isRelated: reads `rel[related]`; a missing field is a TypeError, an
array matches when the element id is among the elements' `.value` reads,
anything else matches when its own `.value` read equals the id. -/
def isRelated (id : Nat) (rel : JObj) (pn : pName) : Except String Bool :=
  match getField rel pn.related with
  | none => .error "TypeError: cannot read property of undefined"
  | some (.arr xs) => .ok ((xs.map jsValueOf).contains (some id))
  | some v => .ok (jsValueOf v == some id)

/-- getRelated: reads `rel[relating]`; a missing field is a TypeError, an
array contributes all its elements' `.value` reads, anything else
contributes its own `.value` read. -/
def getRelated (rel : JObj) (pn : pName) : Except String (List (Option Nat)) :=
  match getField rel pn.relating with
  | none => .error "TypeError: cannot read property of undefined"
  | some (.arr xs) => .ok (xs.map jsValueOf)
  | some v => .ok [jsValueOf v]

/-- Total restriction of isRelated to records carrying the related field. -/
def isRelatedT (id : Nat) (rel : JObj) (pn : pName) : Bool :=
  match getField rel pn.related with
  | some (.arr xs) => (xs.map jsValueOf).contains (some id)
  | some v => jsValueOf v == some id
  | none => false

/-- Total restriction of getRelated to records carrying the relating field. -/
def getRelatedT (rel : JObj) (pn : pName) : List (Option Nat) :=
  match getField rel pn.relating with
  | some (.arr xs) => xs.map jsValueOf
  | some v => [jsValueOf v]
  | none => []

/-- A relation record carrying both descriptor fields (the shape the
property resolver handles without a TypeError). -/
def hasRelFieldsB (pn : pName) (rel : JObj) : Bool :=
  (getField rel pn.related).isSome && (getField rel pn.relating).isSome

/-- The loop body of getAllRelatedItemsOfTypeJSON: check isRelated, and
on a match push the getRelated ids onto the accumulator. -/
def relatedFoldBody (id : Nat) (pn : pName) (IDs : List (Option Nat)) (line : JObj) :
    Except String (List (Option Nat)) := do
  let rel ← isRelated id line pn
  if rel then do
    let newIds ← getRelated line pn
    pure (IDs ++ newIds)
  else
    pure IDs

/-- getAllRelatedItemsOfTypeJSON: scan the relation records in record
order, keep the relating-side ids of those whose related side contains
the element id. -/
def getAllRelatedItemsOfTypeJSON (tm : TypesMap) (data : List (Nat × JObj))
    (id : Nat) (pn : pName) : Except String (List (Option Nat)) := do
  let lines ← getAllItemsOfTypeJSONVerbose tm data pn.name
  lines.foldlM (relatedFoldBody id pn) []

/-- getItemsByIDJSON: spread-copy fetch of each id in order. -/
def getItemsByIDJSON (data : List (Nat × JObj)) (ids : List (Option Nat)) : List JObj :=
  ids.map (fetchRecO data)

/-- getPropertyJSON with recursive = false: resolve the matched relating
ids to full records. -/
def getPropertyJSONNonRec (tm : TypesMap) (data : List (Nat × JObj)) (id : Nat)
    (pn : pName) : Except String (List JObj) := do
  let resultIDs ← getAllRelatedItemsOfTypeJSON tm data id pn
  pure (getItemsByIDJSON data resultIDs)

mutual

/-- getJSONReferencesRecursively with fuel: walk every field of the
record through getJSONItem; `none` means the mutation cascade did not
complete within the fuel (the source has no guard against reference
cycles in the data). -/
def expandObjF (data : List (Nat × JObj)) : Nat → JObj → Option JObj
  | 0, _ => none
  | _ + 1, [] => some []
  | n + 1, (k, v) :: rest => do
      let v1 ← expandFieldF data n v
      let rest1 ← expandObjF data n rest
      pure ((k, v1) :: rest1)

/-- getJSONItem on one field: an array field goes through the
element-wise map; a field whose value is a typed-value pair with type
tag 5 (the `jsonObject[key].type === 5` reference check) is replaced by
the fetched target record and recursed into; anything else is left
unchanged. -/
def expandFieldF (data : List (Nat × JObj)) : Nat → JVal → Option JVal
  | 0, _ => none
  | n + 1, .arr xs => (expandElemsF data n xs).map .arr
  | n + 1, .tv t id =>
      if t = 5 then (expandObjF data n (fetchRec data id)).map .obj
      else some (.tv t id)
  | _ + 1, v => some v

/-- getMultipleJSONItems: map over the array; an element whose type tag
is 5 (the `item.type === 5` reference check) is replaced by the fetched
target record and recursed into; every other element (including nested
arrays) is returned unchanged. -/
def expandElemsF (data : List (Nat × JObj)) : Nat → List JVal → Option (List JVal)
  | 0, _ => none
  | _ + 1, [] => some []
  | n + 1, x :: xs => do
      let x1 ← match x with
               | .tv t id =>
                   if t = 5 then (expandObjF data n (fetchRec data id)).map JVal.obj
                   else some (.tv t id)
               | v => pure v
      let xs1 ← expandElemsF data n xs
      pure (x1 :: xs1)

end

/-- getPropertyJSON with recursive = true: resolve the matched ids to
full records, then expand every record in place. -/
def getPropertyJSONRec (tm : TypesMap) (data : List (Nat × JObj)) (id : Nat)
    (pn : pName) (fuel : Nat) : Except String (Option (List JObj)) := do
  let resultIDs ← getAllRelatedItemsOfTypeJSON tm data id pn
  let result := getItemsByIDJSON data resultIDs
  pure (result.mapM (expandObjF data fuel))

/-- A value is a reference exactly when its type tag is 5 (the check
performed by getJSONItem and getMultipleJSONItems). -/
def isRefV : JVal → Bool
  | .tv t _ => t == 5
  | _ => false

mutual

/-- The expansion claim's notion of fully expanded output: no field value
is a reference, array fields carry no reference element, and every
object (a record inlined by the expansion) is recursively expanded. -/
def expandedVal : JVal → Bool
  | .tv t _ => !(t == 5)
  | .arr xs => expandedElems xs
  | .obj fs => expandedObj fs
  | _ => true

def expandedElems : List JVal → Bool
  | [] => true
  | x :: xs =>
      !isRefV x &&
      (match x with
       | .obj fs => expandedObj fs
       | _ => true) &&
      expandedElems xs

def expandedObj : JObj → Bool
  | [] => true
  | (_, v) :: rest => expandedVal v && expandedObj rest

end

/-- An array element of the source format: a scalar or a typed value,
never a nested array or inline object. -/
def wfElemB : JVal → Bool
  | .arr _ => false
  | .obj _ => false
  | _ => true

/-- Array elements all of the source-format shape. -/
def wfElems (xs : List JVal) : Bool :=
  xs.all wfElemB

/-- Field values of the records in the source format: scalars,
references, or arrays of scalars and references (no nested arrays and no
inline objects), per the spec's data model. -/
def wfFieldVal : JVal → Bool
  | .arr xs => wfElems xs
  | .obj _ => false
  | _ => true

/-- A record whose field values all have the source-format shape. -/
def wfRecB (r : JObj) : Bool :=
  r.all fun p => wfFieldVal p.2

/-- A jsonData table all of whose records have the source-format shape. -/
def wfDataB (data : List (Nat × JObj)) : Bool :=
  data.all fun p => wfRecB p.2

/-- A field value containing no reference at all: not a reference itself
and, for an array, no reference element. -/
def refFreeVal : JVal → Bool
  | .tv t _ => !(t == 5)
  | .arr xs => xs.all fun x => !isRefV x
  | _ => true

/-- A record with no reference fields. -/
def refFreeObj (r : JObj) : Bool :=
  r.all fun p => refFreeVal p.2

/-- Fuel bound under which the expansion of a reference-free value is
complete: arrays need one step per element. -/
def vsizeE : JVal → Nat
  | .arr xs => 2 + xs.length
  | _ => 1

/-- Fuel bound under which the expansion of a reference-free record is
complete. -/
def osizeE : JObj → Nat
  | [] => 1
  | (_, v) :: rest => 1 + vsizeE v + osizeE rest

/-- A placed-geometry color; the components are the numeric values of
`placedGeometry.color` (floating-point in the source, embedded as
rationals; the string key below renders them exactly, so key equality is
exact component-wise match). -/
structure IfcColor where
  x : Rat
  y : Rat
  z : Rat
  w : Rat
deriving DecidableEq

/-- The colorID template literal: the string concatenation of the four
rendered components, with no separator. -/
def colorKeyOf (c : IfcColor) : String :=
  toString c.x ++ toString c.y ++ toString c.z ++ toString c.w

/-- A three.js MeshLambertMaterial as configured by createMaterial. -/
structure MaterialM where
  color : IfcColor
  transparent : Bool
  opacity : Option Rat
deriving DecidableEq

/-- createMaterial's construction: double-sided lambert material from the
color, transparent (with the alpha as opacity) exactly when the alpha
component differs from 1. -/
def mkMaterial (c : IfcColor) : MaterialM :=
  { color := c
    transparent := c.w ≠ 1
    opacity := if c.w ≠ 1 then some c.w else none }

/-- A BufferGeometry as far as the batching logic reads it: the position
buffer (one entry per vertex) and the express-id attribute. -/
structure GeometryM where
  pos : List Nat
  idAttr : List Nat
deriving DecidableEq

/-- Modelled from the spec: the merge helper of BaseDefinitions (not
under src) merges buffer geometries by concatenating their buffers, so a
merged geometry's vertex count is the sum of the inputs' vertex counts. -/
def mergeGeom (g1 g2 : GeometryM) : GeometryM :=
  { pos := g1.pos ++ g2.pos, idAttr := g1.idAttr ++ g2.idAttr }

/-- storeGeometryAttribute: writes the express id attribute, one entry
per position-buffer vertex. -/
def storeGeometryAttribute (id : Nat) (g : GeometryM) : GeometryM :=
  { g with idAttr := List.replicate g.pos.length id }

/-- The per-color entry of `state.models[mid].items`: the cached material
and the per-express-id geometries.  The creation step is recorded so that
material identity (created once, never replaced) is expressible in a
pure embedding. -/
structure MatEntry where
  material : MaterialM
  createdAt : Nat
  geometries : Nat → Option GeometryM

/-- The items map of one model, keyed by colorID string. -/
abbrev ItemsMap := String → Option MatEntry

def emptyItems : ItemsMap := fun _ => none

/-- Function-map update at one string key. -/
def setItem (items : ItemsMap) (key : String) (e : MatEntry) : ItemsMap :=
  fun k => if k = key then some e else items k

/-- createMaterial: returns untouched when the colorID is already cached,
otherwise creates the material and an empty geometry table. -/
def createMaterial (items : ItemsMap) (colorID : String) (c : IfcColor)
    (step : Nat) : ItemsMap :=
  match items colorID with
  | some _ => items
  | none =>
      setItem items colorID
        { material := mkMaterial c, createdAt := step, geometries := fun _ => none }

/-- A geometry fragment as it reaches saveGeometryByMaterial: the express
id of the element, the placed geometry's color, and the buffer geometry. -/
structure Fragment where
  id : Nat
  color : IfcColor
  geom : GeometryM

/-- saveGeometryByMaterial: compute the colorID, write the id attribute,
ensure the material entry, then file the geometry under the express id —
creating the slot on first sight and merging into it afterwards. -/
def saveGeometryByMaterial (items : ItemsMap) (f : Fragment) (step : Nat) : ItemsMap :=
  let colorID := colorKeyOf f.color
  let geom := storeGeometryAttribute f.id f.geom
  let items1 := createMaterial items colorID f.color step
  match items1 colorID with
  | none => items1
  | some item =>
      match item.geometries f.id with
      | none =>
          setItem items1 colorID
            { item with geometries := fun i => if i = f.id then some geom else item.geometries i }
      | some currentGeom =>
          setItem items1 colorID
            { item with
              geometries := fun i =>
                if i = f.id then some (mergeGeom currentGeom geom) else item.geometries i }

/-- Processing of a fragment sequence in order, threading the step
counter. -/
def processFragments (items : ItemsMap) (step : Nat) : List Fragment → ItemsMap
  | [] => items
  | f :: fs => processFragments (saveGeometryByMaterial items f step) (step + 1) fs

/-- The first fragment of the list carrying the given colorID, with its
offset in the list. -/
def firstWithKey : List Fragment → String → Option (Nat × Fragment)
  | [], _ => none
  | f :: fs, key =>
      if colorKeyOf f.color = key then some (0, f)
      else (firstWithKey fs key).map fun p => (p.1 + 1, p.2)

/-- The id attribute name of BaseDefinitions (not under src; modelled
from the repository's attribute naming). -/
def IdAttrName : String := "expressID"

/-- A three.js BufferAttribute as getExpressId reads it. -/
structure BufferAttributeM where
  data : List Nat

/-- BufferAttribute.getX with item size 1: read the backing array. -/
def BufferAttributeM.getX (a : BufferAttributeM) (i : Nat) : Nat :=
  a.data.getD i 0

/-- A BufferGeometry as getExpressId reads it: an optional index buffer
and the attribute table. -/
structure BufferGeometryM where
  index : Option BufferAttributeM
  attributes : String → BufferAttributeM

/-- getExpressId: bail out (JavaScript `undefined`, modelled `none`) when
the geometry has no index buffer; otherwise read the id attribute at the
first corner of the face. -/
def getExpressId (geometry : BufferGeometryM) (faceIndex : Nat) : Option Nat :=
  match geometry.index with
  | none => none
  | some geoIndex =>
      some ((geometry.attributes IdAttrName).getX (geoIndex.data.getD (3 * faceIndex) 0))

/-- Combination of two chunk entries for the same key: the second build
pass appends its contribution to whatever the first pass left. -/
def combineE (a b : Option (List (Option Nat))) : Option (List (Option Nat)) :=
  match b with
  | none => a
  | some l => some (a.getD [] ++ l)

/-- The ids a record sequence contributes to one chunk key, in record
order. -/
def chunkContribs (pn : pName) (recs : List JObj) (k : Option Nat) : List (Option Nat) :=
  (recs.filter fun r => relKeyT pn r == k).flatMap fun r => relIdsT pn r

/-- The relating-side ids of the relation records whose related side
contains the element id, in record order. -/
def matchedRelatingIds (lines : List JObj) (id : Nat) (pn : pName) : List (Option Nat) :=
  (lines.filter fun l => isRelatedT id l pn).flatMap fun l => getRelatedT l pn

/-- Identity-relevant view of a material entry: the material value and
the step at which it was created. -/
def matView (e : MatEntry) : MaterialM × Nat :=
  (e.material, e.createdAt)

/-- Fixture classification map: the four type ids used by the fixtures,
with their canonical upper-case names. -/
def tmFix : TypesMap := fun t =>
  if t = IFCPROJECT then some "IFCPROJECT"
  else if t = IFCRELAGGREGATES then some "IFCRELAGGREGATES"
  else if t = IFCRELCONTAINEDINSPATIALSTRUCTURE then some "IFCRELCONTAINEDINSPATIALSTRUCTURE"
  else if t = IFCRELDEFINESBYPROPERTIES then some "IFCRELDEFINESBYPROPERTIES"
  else none

/-- Fixture incremental-query store: empty model. -/
def apiFix : WebIfcAPI :=
  ⟨fun _ _ => [], fun _ _ => []⟩

/-- Fixture model whose relation records encode the cycle 1 aggregates 2,
2 aggregates 1, rooted at the project record 1. -/
def cycleData : List (Nat × JObj) :=
  [ (1, [("type", .str "IFCPROJECT")]),
    (2, [("type", .str "IFCSITE")]),
    (10, [("type", .str "IFCRELAGGREGATES"), ("RelatingObject", .tv 5 1),
          ("RelatedObjects", .arr [.tv 5 2])]),
    (11, [("type", .str "IFCRELAGGREGATES"), ("RelatingObject", .tv 5 2),
          ("RelatedObjects", .arr [.tv 5 1])]) ]

/-- The chunk map getSpatialTreeChunks builds for the cycle fixture. -/
def cycleChunks : ChunkMap :=
  [(some 1, [some 2]), (some 2, [some 1])]

/-- Fixture model with no project-type record. -/
def noProjectData : List (Nat × JObj) :=
  [ (3, [("type", .str "IFCWALL")]) ]

/-- Fixture model in which node 1 has child 2 under both relation kinds
and child 3 under the spatial kind only. -/
def dupData : List (Nat × JObj) :=
  [ (1, [("type", .str "IFCPROJECT")]),
    (2, [("type", .str "IFCSITE")]),
    (3, [("type", .str "IFCWALL")]),
    (10, [("type", .str "IFCRELAGGREGATES"), ("RelatingObject", .tv 5 1),
          ("RelatedObjects", .arr [.tv 5 2])]),
    (11, [("type", .str "IFCRELCONTAINEDINSPATIALSTRUCTURE"), ("RelatingStructure", .tv 5 1),
          ("RelatedElements", .arr [.tv 5 2, .tv 5 3])]) ]

/-- The combined chunk map of the duplicate-membership fixture. -/
def dupChunks : ChunkMap := [(some 1, [some 2, some 2, some 3])]

/-- The aggregates-only chunk map of the duplicate-membership fixture. -/
def dupAggChunks : ChunkMap := [(some 1, [some 2])]

/-- The spatial-only chunk map of the duplicate-membership fixture. -/
def dupSpatChunks : ChunkMap := [(some 1, [some 2, some 3])]

/-- A relation record whose related field is a single reference rather
than an array. -/
def singleRefRelRec : JObj :=
  [("type", .str "IFCRELAGGREGATES"), ("RelatingObject", .tv 5 1),
   ("RelatedObjects", .tv 5 2)]

/-- A well-formed aggregates relation record: 1 aggregates 2. -/
def wfRelRec : JObj :=
  [("type", .str "IFCRELAGGREGATES"), ("RelatingObject", .tv 5 1),
   ("RelatedObjects", .arr [.tv 5 2])]

/-- Fixture model for the property resolver: wall 1 carries property set
50, which references single value 60. -/
def psetData : List (Nat × JObj) :=
  [ (1, [("type", .str "IFCWALL")]),
    (50, [("type", .str "IFCPROPERTYSET"), ("HasProperties", .arr [.tv 5 60])]),
    (60, [("type", .str "IFCPROPERTYSINGLEVALUE"), ("NominalValue", .num 3)]),
    (70, [("type", .str "IFCRELDEFINESBYPROPERTIES"),
          ("RelatingPropertyDefinition", .tv 5 50),
          ("RelatedObjects", .arr [.tv 5 1])]) ]

@[simp]
theorem except_ok_bind {α β : Type} (a : α) (f : α → Except String β) :
    (Except.ok a >>= f) = f a := rfl

@[simp]
theorem except_error_bind {α β : Type} (e : String) (f : α → Except String β) :
    ((Except.error e : Except String α) >>= f) = Except.error e := rfl

@[simp]
theorem except_pure_eq_ok {α : Type} (a : α) :
    (pure a : Except String α) = Except.ok a := rfl

@[simp]
theorem option_some_bind {α β : Type} (a : α) (f : α → Option β) :
    (some a >>= f) = f a := rfl

@[simp]
theorem option_none_bind {α β : Type} (f : α → Option β) :
    ((none : Option α) >>= f) = none := rfl

@[simp]
theorem option_pure_eq_some {α : Type} (a : α) :
    (pure a : Option α) = some a := rfl

@[simp]
theorem option_map_some {α β : Type} (a : α) (f : α → β) :
    Option.map f (some a) = some (f a) := rfl

@[simp]
theorem option_map_none {α β : Type} (f : α → β) :
    Option.map f (none : Option α) = none := rfl

@[simp]
theorem Node.expressID_mk (e : Option Nat) (t : String) (cs : List Node) :
    (Node.mk e t cs).expressID = e := rfl

@[simp]
theorem Node.children_mk (e : Option Nat) (t : String) (cs : List Node) :
    (Node.mk e t cs).children = cs := rfl

@[simp]
theorem Node.withChildren_expressID (node : Node) (cs : List Node) :
    (node.withChildren cs).expressID = node.expressID := by
  cases node; rfl

@[simp]
theorem Node.withChildren_children (node : Node) (cs : List Node) :
    (node.withChildren cs).children = cs := by
  cases node; rfl

@[simp]
theorem newNode_expressID (data : List (Nat × JObj)) (id : Option Nat) :
    (newNode data id).expressID = id := rfl

theorem lookupC_setC (m : ChunkMap) (k : Option Nat) (vs : List (Option Nat))
    (q : Option Nat) :
    lookupC (setC m k vs) q = if k = q then some vs else lookupC m q := by
  induction m with
  | nil => simp [setC, lookupC]
  | cons hd tl ih =>
      obtain ⟨k1, old⟩ := hd
      by_cases h1 : k1 = k
      · subst h1
        by_cases h2 : k1 = q <;> simp [setC, lookupC, h2]
      · by_cases h2 : k1 = q
        · subst h2
          have hkq : ¬ k = k1 := fun h => h1 h.symm
          simp [setC, lookupC, h1, hkq]
        · by_cases h3 : k = q
          · subst h3
            simp [setC, lookupC, h1, h2, ih]
          · simp [setC, lookupC, h1, h2, h3, ih]

theorem lookupC_append_single (m : ChunkMap) (k : Option Nat)
    (vs : List (Option Nat)) (q : Option Nat) :
    lookupC (m ++ [(k, vs)]) q =
      match lookupC m q with
      | some l => some l
      | none => if k = q then some vs else none := by
  induction m with
  | nil => simp [lookupC]
  | cons hd tl ih =>
      obtain ⟨k1, old⟩ := hd
      by_cases h : k1 = q <;> simp [lookupC, h, ih]

theorem saveChunkT_lookup (pn : pName) (m : ChunkMap) (rel : JObj) (q : Option Nat) :
    lookupC (saveChunkT pn m rel) q =
      if relKeyT pn rel = q then some ((lookupC m q).getD [] ++ relIdsT pn rel)
      else lookupC m q := by
  cases h : lookupC m (relKeyT pn rel) with
  | none =>
      simp only [saveChunkT, h]
      rw [lookupC_append_single]
      by_cases hq : relKeyT pn rel = q
      · subst hq
        simp [h]
      · cases hmq : lookupC m q <;> simp [hq, hmq]
  | some old =>
      simp only [saveChunkT, h]
      rw [lookupC_setC]
      by_cases hq : relKeyT pn rel = q
      · subst hq
        simp [h]
      · simp [hq]

theorem saveChunk_ok_of_chunkOk (pn : pName) (rel : JObj)
    (h : chunkOkB pn rel = true) :
    ∀ m, saveChunk pn m rel = .ok (saveChunkT pn m rel) := by
  intro m
  unfold chunkOkB at h
  cases h1 : getField rel pn.relating with
  | none => simp [h1] at h
  | some v =>
      cases h2 : getField rel pn.related with
      | none => simp [h1, h2] at h
      | some w =>
          cases w <;> simp [h1, h2] at h <;>
            simp [saveChunk, saveChunkT, relKeyT, relIdsT, h1, h2]

theorem saveChunk_err_of_not_chunkOk (pn : pName) (rel : JObj)
    (h : chunkOkB pn rel = false) :
    ∀ m b, saveChunk pn m rel ≠ .ok b := by
  intro m b hc
  unfold chunkOkB at h
  unfold saveChunk at hc
  cases h1 : getField rel pn.relating with
  | none => rw [h1] at hc; exact absurd hc (by simp)
  | some v =>
      rw [h1] at hc
      cases h2 : getField rel pn.related with
      | none => rw [h2] at hc; exact absurd hc (by simp)
      | some w =>
          rw [h2] at hc
          cases w <;> simp [h1, h2] at h hc

theorem wfRelB_chunkOk (pn : pName) (rel : JObj) (h : wfRelB pn rel = true) :
    chunkOkB pn rel = true := by
  unfold wfRelB at h
  unfold chunkOkB
  cases h1 : getField rel pn.relating with
  | none => simp [h1] at h
  | some v =>
      cases h2 : getField rel pn.related with
      | none => simp [h1, h2] at h
      | some w => cases w <;> simp [h1, h2] at h ⊢

theorem saveChunk_wf_ok (pn : pName) (m : ChunkMap) (rel : JObj)
    (h : wfRelB pn rel = true) :
    saveChunk pn m rel = .ok (saveChunkT pn m rel) :=
  saveChunk_ok_of_chunkOk pn rel (wfRelB_chunkOk pn rel h) m

theorem saveChunk_ok_indep (pn : pName) (m : ChunkMap) (rel : JObj) (b : ChunkMap)
    (h : saveChunk pn m rel = .ok b) :
    b = saveChunkT pn m rel ∧
    ∀ m1, saveChunk pn m1 rel = .ok (saveChunkT pn m1 rel) := by
  cases hok : chunkOkB pn rel with
  | false => exact absurd h (saveChunk_err_of_not_chunkOk pn rel hok m b)
  | true =>
      have h2 := saveChunk_ok_of_chunkOk pn rel hok m
      rw [h2] at h
      cases h
      exact ⟨rfl, fun m1 => saveChunk_ok_of_chunkOk pn rel hok m1⟩

theorem foldlM_saveChunk_ok (pn : pName) (recs : List JObj) (m b : ChunkMap)
    (h : recs.foldlM (saveChunk pn) m = .ok b) :
    b = recs.foldl (saveChunkT pn) m ∧
    ∀ m1, recs.foldlM (saveChunk pn) m1 = .ok (recs.foldl (saveChunkT pn) m1) := by
  induction recs generalizing m b with
  | nil =>
      simp only [List.foldlM_nil, pure] at h
      cases h
      exact ⟨rfl, fun m1 => rfl⟩
  | cons r rs ih =>
      rw [List.foldlM_cons] at h
      cases hc : saveChunk pn m r with
      | error e => rw [hc] at h; simp at h
      | ok m2 =>
          rw [hc] at h
          rw [except_ok_bind] at h
          obtain ⟨hm2, hall⟩ := saveChunk_ok_indep pn m r m2 hc
          subst hm2
          obtain ⟨hb, hrest⟩ := ih _ b h
          refine ⟨by simpa using hb, ?_⟩
          intro m1
          rw [List.foldlM_cons, hall m1, except_ok_bind]
          simpa using hrest (saveChunkT pn m1 r)

theorem foldl_saveChunkT_lookup (pn : pName) (recs : List JObj) (m : ChunkMap)
    (q : Option Nat) :
    lookupC (recs.foldl (saveChunkT pn) m) q =
      combineE (lookupC m q) (lookupC (recs.foldl (saveChunkT pn) []) q) := by
  induction recs generalizing m with
  | nil => cases h : lookupC m q <;> simp [combineE, lookupC, h]
  | cons r rs ih =>
      rw [List.foldl_cons, List.foldl_cons, ih (saveChunkT pn m r),
        ih (saveChunkT pn [] r), saveChunkT_lookup, saveChunkT_lookup]
      by_cases hq : relKeyT pn r = q <;>
        cases hX : lookupC (rs.foldl (saveChunkT pn) []) q <;>
          cases hm : lookupC m q <;>
            simp [combineE, hq, hX, hm, lookupC, List.append_assoc]

theorem combineE_none_left (b : Option (List (Option Nat))) : combineE none b = b := by
  cases b <;> simp [combineE]

theorem chunkContribs_cons (pn : pName) (r : JObj) (rs : List JObj) (q : Option Nat) :
    chunkContribs pn (r :: rs) q =
      if relKeyT pn r = q then relIdsT pn r ++ chunkContribs pn rs q
      else chunkContribs pn rs q := by
  unfold chunkContribs
  by_cases h : relKeyT pn r = q <;> simp [List.filter_cons, h]

theorem chunkContribs_nil_of_not_any (pn : pName) (recs : List JObj) (q : Option Nat)
    (h : recs.any (fun r => relKeyT pn r == q) = false) :
    chunkContribs pn recs q = [] := by
  unfold chunkContribs
  have hnil : recs.filter (fun r => relKeyT pn r == q) = [] := by
    rw [List.filter_eq_nil_iff]
    intro a ha
    rw [List.any_eq_false] at h
    exact h a ha
  rw [hnil]
  rfl

theorem foldl_saveChunkT_empty_lookup (pn : pName) (recs : List JObj) (q : Option Nat) :
    lookupC (recs.foldl (saveChunkT pn) []) q =
      if recs.any (fun r => relKeyT pn r == q) then some (chunkContribs pn recs q)
      else none := by
  induction recs with
  | nil => simp [lookupC]
  | cons r rs ih =>
      have hstep : lookupC (saveChunkT pn ([] : ChunkMap) r) q =
          if relKeyT pn r = q then some (relIdsT pn r) else none := by
        rw [saveChunkT_lookup]
        by_cases hq : relKeyT pn r = q <;> simp [hq, lookupC]
      rw [List.foldl_cons, foldl_saveChunkT_lookup, ih, hstep, chunkContribs_cons]
      by_cases hq : relKeyT pn r = q
      · have hbq : (relKeyT pn r == q) = true := by simpa using hq
        by_cases h2 : rs.any (fun x => relKeyT pn x == q) = true
        · simp [hq, hbq, h2, combineE]
        · have h2f : rs.any (fun x => relKeyT pn x == q) = false := by simpa using h2
          have hnil := chunkContribs_nil_of_not_any pn rs q h2f
          simp [hq, hbq, h2f, combineE, hnil]
      · have hbq : (relKeyT pn r == q) = false := by simpa using hq
        rw [if_neg hq, if_neg hq, combineE_none_left]
        simp [hbq]

theorem spatial_fuel_props (data : List (Nat × JObj)) (chunks : ChunkMap) :
    ∀ n : Nat,
      (∀ node res, getSpatialNodeFuel data chunks n node = some res →
         res.expressID = node.expressID ∧
         (∀ ids, lookupC chunks node.expressID = some ids →
            res.children.map Node.expressID = ids) ∧
         (lookupC chunks node.expressID = none → res = node)) ∧
      (∀ node res, getChildrenPass data chunks n node = some res →
         res.expressID = node.expressID ∧
         (∀ ids, lookupC chunks node.expressID = some ids →
            res.children.map Node.expressID = ids) ∧
         (lookupC chunks node.expressID = none → res = node)) ∧
      (∀ ids cs, buildChildren data chunks n ids = some cs →
         cs.map Node.expressID = ids) := by
  intro n
  induction n with
  | zero =>
      refine ⟨?_, ?_, ?_⟩ <;> intro a b h <;>
        simp [getSpatialNodeFuel, getChildrenPass, buildChildren] at h
  | succ n ih =>
      obtain ⟨ihS, ihP, ihB⟩ := ih
      refine ⟨?_, ?_, ?_⟩
      · intro node res h
        simp only [getSpatialNodeFuel] at h
        cases h1 : getChildrenPass data chunks n node with
        | none => rw [h1, option_none_bind] at h; cases h
        | some node1 =>
            rw [h1, option_some_bind] at h
            obtain ⟨e1, _, n1⟩ := ihP node node1 h1
            obtain ⟨e2, c2, n2⟩ := ihP node1 res h
            refine ⟨by rw [e2, e1], ?_, ?_⟩
            · intro ids hids
              exact c2 ids (by rw [e1]; exact hids)
            · intro hnone
              have hn1 : node1 = node := n1 hnone
              subst hn1
              exact n2 hnone
      · intro node res h
        simp only [getChildrenPass] at h
        cases hl : lookupC chunks node.expressID with
        | none =>
            simp only [hl] at h
            obtain rfl := Option.some.inj h
            refine ⟨rfl, ?_, fun _ => rfl⟩
            intro ids hids
            cases hids
        | some ids =>
            simp only [hl] at h
            cases hb : buildChildren data chunks n ids with
            | none => rw [hb, option_map_none] at h; cases h
            | some cs =>
                rw [hb, option_map_some] at h
                obtain rfl := Option.some.inj h
                refine ⟨by simp, ?_, ?_⟩
                · intro ids1 hids1
                  obtain rfl := Option.some.inj hids1
                  simpa using ihB ids cs hb
                · intro hnone
                  cases hnone
      · intro ids cs h
        cases ids with
        | nil =>
            simp only [buildChildren] at h
            obtain rfl := Option.some.inj h
            rfl
        | cons cid rest =>
            simp only [buildChildren] at h
            cases h1 : getSpatialNodeFuel data chunks n (newNode data cid) with
            | none => rw [h1, option_none_bind] at h; cases h
            | some c =>
                rw [h1, option_some_bind] at h
                cases h2 : buildChildren data chunks n rest with
                | none => rw [h2, option_none_bind] at h; cases h
                | some cs1 =>
                    rw [h2, option_some_bind, option_pure_eq_some] at h
                    obtain rfl := Option.some.inj h
                    have hce := (ihS (newNode data cid) c h1).1
                    have hrest := ihB rest cs1 h2
                    simp [hce, hrest]

theorem leaf_node_fixed (data : List (Nat × JObj)) (chunks : ChunkMap) (node : Node)
    (h : lookupC chunks node.expressID = none) (n : Nat) :
    getSpatialNodeFuel data chunks (n + 2) node = some node := by
  have hp : ∀ m : Nat, getChildrenPass data chunks (m + 1) node = some node := by
    intro m
    simp only [getChildrenPass, h]
  simp only [getSpatialNodeFuel]
  rw [show n + 1 = n + 0 + 1 from rfl, hp, option_some_bind, hp]

theorem cycle_fuel_none :
    ∀ n : Nat,
      (∀ node, node.expressID = some 1 ∨ node.expressID = some 2 →
         getSpatialNodeFuel cycleData cycleChunks n node = none) ∧
      (∀ node, node.expressID = some 1 ∨ node.expressID = some 2 →
         getChildrenPass cycleData cycleChunks n node = none) ∧
      (∀ cid : Option Nat, cid = some 1 ∨ cid = some 2 →
         buildChildren cycleData cycleChunks n [cid] = none) := by
  intro n
  induction n with
  | zero =>
      refine ⟨?_, ?_, ?_⟩ <;> intro a _ <;>
        simp [getSpatialNodeFuel, getChildrenPass, buildChildren]
  | succ n ih =>
      obtain ⟨ihS, ihP, ihB⟩ := ih
      refine ⟨?_, ?_, ?_⟩
      · intro node hn
        simp only [getSpatialNodeFuel]
        rw [ihP node hn, option_none_bind]
      · intro node hn
        rcases hn with h | h
        · simp only [getChildrenPass, h,
            show lookupC cycleChunks (some 1) = some [some 2] from rfl,
            ihB (some 2) (Or.inr rfl), option_map_none]
        · simp only [getChildrenPass, h,
            show lookupC cycleChunks (some 2) = some [some 1] from rfl,
            ihB (some 1) (Or.inl rfl), option_map_none]
      · intro cid hc
        rcases hc with h | h <;> subst h
        · simp only [buildChildren,
            ihS (newNode cycleData (some 1)) (Or.inl rfl), option_none_bind]
        · simp only [buildChildren,
            ihS (newNode cycleData (some 2)) (Or.inr rfl), option_none_bind]

/-- Claim C2: the source performs no cycle detection, so on the cycle
fixture (1 aggregates 2, 2 aggregates 1) getSpatialStructure exhausts
every fuel budget without completing and without raising any error -- in
particular it never raises a MalformedHierarchy error within a bounded
visited-node budget; it recurses until the stack would overflow. -/
theorem getSpatialStructure_cycle_diverges_without_error :
    ∀ fuel : Nat, getSpatialStructureJSONFuel tmFix cycleData fuel = .ok none := by
  intro fuel
  have hred : getSpatialStructureJSONFuel tmFix cycleData fuel =
      Except.ok (getSpatialNodeFuel cycleData cycleChunks fuel
        (Node.mk (some 1) "IFCPROJECT" [])) := rfl
  rw [hred, (cycle_fuel_none fuel).1 (Node.mk (some 1) "IFCPROJECT" []) (Or.inl rfl)]

/-- Counterexample to claim C3: on a model with no project-type record,
getSpatialStructure does not fail with a MissingRoot error (nor any
other error): indexing the empty project-id list yields undefined, and a
root node with an undefined express id and no children is returned. -/
theorem missing_project_returns_ok_root :
    getSpatialStructureJSONFuel tmFix noProjectData 2 =
      .ok (some (Node.mk none "IFCPROJECT" [])) := rfl

/-- Claim C3, amended: with no project-type record the JSON workflow
raises no error and returns a root node with an undefined express id
(and, when the chunk map has no entry under the undefined key, no
children); with one or more project-type records the first id in record
order becomes the root's express id. -/
theorem project_root_selection :
    (∀ (tm : TypesMap) (data : List (Nat × JObj)) (tn : String) (m : ChunkMap)
       (fuel : Nat),
       tm IFCPROJECT = some tn →
       filterIdsByType data tn = [] →
       getSpatialTreeChunks tm data = .ok m →
       lookupC m none = none →
       getSpatialStructureJSONFuel tm data (fuel + 2) =
         .ok (some (Node.mk none "IFCPROJECT" []))) ∧
    (∀ (tm : TypesMap) (data : List (Nat × JObj)) (tn : String) (fuel : Nat)
       (p : Nat) (rest : List Nat) (res : Node),
       tm IFCPROJECT = some tn →
       filterIdsByType data tn = p :: rest →
       getSpatialStructureJSONFuel tm data fuel = .ok (some res) →
       res.expressID = some p) := by
  constructor
  · intro tm data tn m fuel htm hfilter hm hkey
    simp only [getSpatialStructureJSONFuel, hm, except_ok_bind,
      getAllItemsOfTypeJSONIds, htm, hfilter, List.head?_nil, newIfcProject]
    have hleaf := leaf_node_fixed data m (Node.mk none "IFCPROJECT" [])
      (by simpa using hkey) fuel
    rw [hleaf]
    rfl
  · intro tm data tn fuel p rest res htm hfilter hrun
    cases hc : getSpatialTreeChunks tm data with
    | error e =>
        rw [getSpatialStructureJSONFuel, hc, except_error_bind] at hrun
        cases hrun
    | ok m =>
        rw [getSpatialStructureJSONFuel, hc, except_ok_bind] at hrun
        simp only [getAllItemsOfTypeJSONIds, htm, hfilter, except_ok_bind,
          List.head?_cons, newIfcProject, except_pure_eq_ok] at hrun
        have hS : getSpatialNodeFuel data m fuel (Node.mk (some p) "IFCPROJECT" []) =
            some res := by
          have := Except.ok.inj hrun
          exact this
        have := ((spatial_fuel_props data m fuel).1 _ res hS).1
        simpa using this

/-- Claim C1: when a node's id has entries from both the aggregates
relation records and the spatial relation records, its rebuilt children
sequence is exactly the aggregates-derived children (in chunk order)
followed by the spatial-derived children (in chunk order), and a child
id listed under both relation kinds appears at least twice (it is not
deduplicated). -/
theorem spatial_children_aggregates_then_spatial
    (tm : TypesMap) (data : List (Nat × JObj)) (m aggM spatM : ChunkMap)
    (key : Option Nat) (aggIds spatIds : List (Option Nat))
    (node res : Node) (fuel : Nat)
    (hcomb : getSpatialTreeChunks tm data = .ok m)
    (hagg : getChunksJSON tm data [] pAggregates = .ok aggM)
    (hspat : getChunksJSON tm data [] pSpatial = .ok spatM)
    (haggIds : lookupC aggM key = some aggIds)
    (hspatIds : lookupC spatM key = some spatIds)
    (hnode : node.expressID = key)
    (hrun : getSpatialNodeFuel data m fuel node = some res) :
    res.children.map Node.expressID = aggIds ++ spatIds ∧
    ∀ c, c ∈ aggIds → c ∈ spatIds →
      2 ≤ (res.children.map Node.expressID).count c := by
  rw [getSpatialTreeChunks, hagg, except_ok_bind] at hcomb
  rw [getChunksJSON] at hcomb hspat
  cases hv : getAllItemsOfTypeJSONVerbose tm data pSpatial.name with
  | error e =>
      rw [hv, except_error_bind] at hcomb
      cases hcomb
  | ok spatLines =>
      rw [hv, except_ok_bind] at hcomb hspat
      obtain ⟨hmEq, _⟩ := foldlM_saveChunk_ok pSpatial spatLines aggM m hcomb
      obtain ⟨hsEq, _⟩ := foldlM_saveChunk_ok pSpatial spatLines [] spatM hspat
      have hlook : lookupC m key = some (aggIds ++ spatIds) := by
        rw [hmEq, foldl_saveChunkT_lookup, ← hsEq, haggIds, hspatIds]
        rfl
      have hchildren :=
        ((spatial_fuel_props data m fuel).1 node res hrun).2.1 (aggIds ++ spatIds)
          (by rw [hnode]; exact hlook)
      refine ⟨hchildren, ?_⟩
      intro c hca hcs
      rw [hchildren, List.count_append]
      have h1 : 1 ≤ aggIds.count c := List.one_le_count_iff.mpr hca
      have h2 : 1 ≤ spatIds.count c := List.one_le_count_iff.mpr hcs
      omega

/-- Witness for claim C1 on the duplicate-membership fixture: node 1 has
aggregates child 2 and spatial children 2 and 3; the rebuilt children
sequence is 2, 2, 3 and the doubly related child 2 appears twice. -/
theorem spatial_children_aggregates_then_spatial_witness :
    (Node.mk (some 1) "IFCPROJECT"
        [Node.mk (some 2) "IFCSITE" [], Node.mk (some 2) "IFCSITE" [],
         Node.mk (some 3) "IFCWALL" []]).children.map Node.expressID =
      [some 2] ++ [some 2, some 3] ∧
    ∀ c, c ∈ [some (2 : Nat)] → c ∈ [some 2, some 3] →
      2 ≤ (((Node.mk (some 1) "IFCPROJECT"
        [Node.mk (some 2) "IFCSITE" [], Node.mk (some 2) "IFCSITE" [],
         Node.mk (some 3) "IFCWALL" []]).children.map Node.expressID).count c) :=
  spatial_children_aggregates_then_spatial tmFix dupData dupChunks dupAggChunks
    dupSpatChunks (some 1) [some 2] [some 2, some 3]
    (Node.mk (some 1) "IFCPROJECT" [])
    (Node.mk (some 1) "IFCPROJECT"
      [Node.mk (some 2) "IFCSITE" [], Node.mk (some 2) "IFCSITE" [],
       Node.mk (some 3) "IFCWALL" []]) 8
    rfl rfl rfl rfl rfl rfl rfl

/-- Witness for the amended claim C3: the no-project fixture returns the
undefined-id root, and on the duplicate-membership fixture (whose only
project record is 1) the root's express id is 1, the first project id in
record order. -/
theorem project_root_selection_witness :
    getSpatialStructureJSONFuel tmFix noProjectData (0 + 2) =
      .ok (some (Node.mk none "IFCPROJECT" [])) ∧
    (Node.mk (some 1) "IFCPROJECT"
        [Node.mk (some 2) "IFCSITE" [], Node.mk (some 2) "IFCSITE" [],
         Node.mk (some 3) "IFCWALL" []]).expressID = some 1 :=
  ⟨project_root_selection.1 tmFix noProjectData "IFCPROJECT" [] 0 rfl rfl rfl rfl,
   project_root_selection.2 tmFix dupData "IFCPROJECT" 8 1 []
     (Node.mk (some 1) "IFCPROJECT"
       [Node.mk (some 2) "IFCSITE" [], Node.mk (some 2) "IFCSITE" [],
        Node.mk (some 3) "IFCWALL" []]) rfl rfl rfl⟩

theorem foldlM_saveChunk_wf (pn : pName) (recs : List JObj)
    (hwf : ∀ r ∈ recs, wfRelB pn r = true) :
    ∀ m, recs.foldlM (saveChunk pn) m = .ok (recs.foldl (saveChunkT pn) m) := by
  induction recs with
  | nil => intro m; rfl
  | cons r rs ih =>
      intro m
      rw [List.foldlM_cons, saveChunk_wf_ok pn m r (hwf r (by simp)), except_ok_bind,
        List.foldl_cons]
      exact ih (fun x hx => hwf x (by simp [hx])) (saveChunkT pn m r)

/-- Counterexample to claim C4: a relation record whose related field is
a single reference rather than an array makes chunk building throw (in
JavaScript, `.map` is not a function on a non-array object) instead of
appending the id without error. -/
theorem saveChunk_single_reference_throws :
    [singleRefRelRec].foldlM (saveChunk pAggregates) ([] : ChunkMap) =
      .error "TypeError: rel related map is not a function" := rfl

/-- Claim C4, amended: for relation records whose relating field is a
single reference and whose related field is an array of references,
chunk building appends the related ids to the entry keyed by the
relating id -- creating the entry when absent and concatenating
otherwise, preserving first-seen order, with multiple records allowed to
contribute to one relating id -- raises no error, and empty input yields
the empty map.  (A single-reference related field, by contrast, throws;
see the counterexample.) -/
theorem saveChunk_append_semantics (pn : pName) :
    (∀ (m : ChunkMap) (rel : JObj), wfRelB pn rel = true →
       saveChunk pn m rel = .ok (saveChunkT pn m rel) ∧
       ∀ k, lookupC (saveChunkT pn m rel) k =
         if relKeyT pn rel = k then some ((lookupC m k).getD [] ++ relIdsT pn rel)
         else lookupC m k) ∧
    (∀ recs : List JObj, (∀ r ∈ recs, wfRelB pn r = true) →
       recs.foldlM (saveChunk pn) ([] : ChunkMap) =
         .ok (recs.foldl (saveChunkT pn) []) ∧
       ∀ k, lookupC (recs.foldl (saveChunkT pn) []) k =
         if recs.any (fun r => relKeyT pn r == k) then some (chunkContribs pn recs k)
         else none) ∧
    (([] : List JObj).foldlM (saveChunk pn) ([] : ChunkMap) = .ok ([] : ChunkMap)) := by
  refine ⟨?_, ?_, rfl⟩
  · intro m rel hwf
    exact ⟨saveChunk_wf_ok pn m rel hwf, fun k => saveChunkT_lookup pn m rel k⟩
  · intro recs hwf
    exact ⟨foldlM_saveChunk_wf pn recs hwf [],
      fun k => foldl_saveChunkT_empty_lookup pn recs k⟩

/-- Witness for the amended claim C4: one well-formed record appended to
an existing entry concatenates after the present ids; two copies of the
record contribute twice to the same relating id; empty input gives the
empty map. -/
theorem saveChunk_append_semantics_witness :
    saveChunk pAggregates [(some 1, [some 9])] wfRelRec =
      .ok (saveChunkT pAggregates [(some 1, [some 9])] wfRelRec) ∧
    lookupC (saveChunkT pAggregates [(some 1, [some 9])] wfRelRec) (some 1) =
      some [some 9, some 2] ∧
    [wfRelRec, wfRelRec].foldlM (saveChunk pAggregates) ([] : ChunkMap) =
      .ok [(some 1, [some 2, some 2])] := by
  have h1 := (saveChunk_append_semantics pAggregates).1 [(some 1, [some 9])] wfRelRec rfl
  have h2 := (saveChunk_append_semantics pAggregates).2.1 [wfRelRec, wfRelRec]
    (by intro r hr; simp at hr; rcases hr with rfl | rfl <;> rfl)
  refine ⟨h1.1, ?_, ?_⟩
  · rw [h1.2 (some 1)]; rfl
  · rw [h2.1]; rfl

/-- Counterexample to claim C7: for a type id with no type-name
classification, the incremental-query variant returns the store's answer
(the empty list) without raising any error; only the JSON variant throws. -/
theorem unknownType_webifc_no_error :
    tmFix 9999 = none ∧
    getAllItemsOfTypeWebIfcAPI apiFix 0 9999 false = .ok (.inl []) ∧
    getAllItemsOfTypeJSON tmFix [] 9999 false =
      .error ("Type not found: " ++ toString (9999 : Nat)) :=
  ⟨rfl, rfl, rfl⟩

/-- Claim C7, amended: a request for all items of a type whose id has no
type-name classification fails with the UnknownType error (`Type not
found`) in the JSON-backed variant only; the incremental-query variant
performs no classification lookup and never throws. -/
theorem unknownType_json_variant_only (tm : TypesMap) (data : List (Nat × JObj))
    (type : Nat) (h : tm type = none) :
    getAllItemsOfTypeJSON tm data type false =
      .error ("Type not found: " ++ toString type) ∧
    getAllItemsOfTypeJSON tm data type true =
      .error ("Type not found: " ++ toString type) ∧
    ∀ (api : WebIfcAPI) (modelID : Nat) (verbose : Bool),
      ∃ r, getAllItemsOfTypeWebIfcAPI api modelID type verbose = .ok r := by
  refine ⟨?_, ?_, ?_⟩
  · simp [getAllItemsOfTypeJSON, h]
  · simp [getAllItemsOfTypeJSON, h]
  · intro api modelID verbose
    cases verbose <;> exact ⟨_, rfl⟩

/-- Witness for the amended claim C7 at a concrete unclassified type id. -/
theorem unknownType_json_variant_only_witness :
    getAllItemsOfTypeJSON tmFix [] 424242 false =
      .error ("Type not found: " ++ toString (424242 : Nat)) ∧
    ∃ r, getAllItemsOfTypeWebIfcAPI apiFix 0 424242 true = .ok r :=
  ⟨(unknownType_json_variant_only tmFix [] 424242 rfl).1,
   (unknownType_json_variant_only tmFix [] 424242 rfl).2.2 apiFix 0 true⟩

/-- Claim C10: getExpressId returns no value when the geometry has no
index buffer (it neither throws nor reads out of bounds), and reads the
id attribute only through the branch in which an index is present. -/
theorem getExpressId_requires_index :
    (∀ (g : BufferGeometryM) (faceIndex : Nat),
       g.index = none → getExpressId g faceIndex = none) ∧
    (∀ (g : BufferGeometryM) (a : BufferAttributeM) (faceIndex : Nat),
       g.index = some a →
       getExpressId g faceIndex =
         some ((g.attributes IdAttrName).getX (a.data.getD (3 * faceIndex) 0))) := by
  constructor
  · intro g faceIndex h
    simp [getExpressId, h]
  · intro g a faceIndex h
    simp [getExpressId, h]

/-- Witness for claim C10: a geometry without an index buffer yields no
value; one with an index buffer reads the id attribute. -/
theorem getExpressId_requires_index_witness :
    getExpressId ⟨none, fun _ => ⟨[5]⟩⟩ 0 = none ∧
    getExpressId ⟨some ⟨[2, 0, 1]⟩, fun _ => ⟨[10, 11, 12]⟩⟩ 0 = some 12 :=
  ⟨getExpressId_requires_index.1 ⟨none, fun _ => ⟨[5]⟩⟩ 0 rfl,
   by
    have := getExpressId_requires_index.2 ⟨some ⟨[2, 0, 1]⟩, fun _ => ⟨[10, 11, 12]⟩⟩
      ⟨[2, 0, 1]⟩ 0 rfl
    simpa [BufferAttributeM.getX] using this⟩

theorem relatedFields_ok (id : Nat) (pn : pName) (line : JObj)
    (h : hasRelFieldsB pn line = true) :
    isRelated id line pn = .ok (isRelatedT id line pn) ∧
    getRelated line pn = .ok (getRelatedT line pn) := by
  unfold hasRelFieldsB at h
  constructor
  · unfold isRelated isRelatedT
    cases h2 : getField line pn.related with
    | none => simp [h2] at h
    | some v => cases v <;> rfl
  · unfold getRelated getRelatedT
    cases h1 : getField line pn.relating with
    | none => simp [h1] at h
    | some v => cases v <;> rfl

theorem matchedRelatingIds_cons (l : JObj) (ls : List JObj) (id : Nat) (pn : pName) :
    matchedRelatingIds (l :: ls) id pn =
      if isRelatedT id l pn then getRelatedT l pn ++ matchedRelatingIds ls id pn
      else matchedRelatingIds ls id pn := by
  unfold matchedRelatingIds
  by_cases h : isRelatedT id l pn <;> simp [List.filter_cons, h]

theorem foldlM_relatedFoldBody (id : Nat) (pn : pName) (lines : List JObj)
    (hwf : ∀ line ∈ lines, hasRelFieldsB pn line = true) :
    ∀ acc, lines.foldlM (relatedFoldBody id pn) acc =
      .ok (acc ++ matchedRelatingIds lines id pn) := by
  induction lines with
  | nil => intro acc; simp [matchedRelatingIds]
  | cons l ls ih =>
      intro acc
      obtain ⟨hiso, hgo⟩ := relatedFields_ok id pn l (hwf l (by simp))
      rw [List.foldlM_cons]
      simp only [relatedFoldBody, hiso, except_ok_bind]
      rw [matchedRelatingIds_cons]
      by_cases hrel : isRelatedT id l pn
      · simp only [hrel, if_true, hgo, except_ok_bind, except_pure_eq_ok]
        rw [ih (fun x hx => hwf x (by simp [hx])) (acc ++ getRelatedT l pn),
          List.append_assoc]
      · simp only [hrel, if_false, Bool.false_eq_true, except_pure_eq_ok]
        exact ih (fun x hx => hwf x (by simp [hx])) acc

theorem matchedRelatingIds_mem (lines : List JObj) (id : Nat) (pn : pName)
    (x : Option Nat) :
    x ∈ matchedRelatingIds lines id pn ↔
      ∃ line, line ∈ lines ∧ isRelatedT id line pn = true ∧
        x ∈ getRelatedT line pn := by
  unfold matchedRelatingIds
  simp [List.mem_flatMap, List.mem_filter, and_assoc]

theorem filterRecsByType_perm (data data' : List (Nat × JObj)) (tn : String)
    (h : data.Perm data') :
    (filterRecsByType data tn).Perm (filterRecsByType data' tn) := by
  unfold filterRecsByType
  exact (h.filter _).map _

theorem matchedRelatingIds_perm (l1 l2 : List JObj) (id : Nat) (pn : pName)
    (h : l1.Perm l2) :
    (matchedRelatingIds l1 id pn).Perm (matchedRelatingIds l2 id pn) := by
  unfold matchedRelatingIds
  exact List.Perm.flatMap_right _ (h.filter _)

/-- Claim C5: with recursive = false the property resolver returns
exactly the relating-side ids of the relation records whose related side
contains the element id (single value or array membership either way),
resolved to full records, and this result is -- as a set -- independent
of record iteration order. -/
theorem getRelatedRecords_nonrecursive_set (tm : TypesMap) (data : List (Nat × JObj))
    (id : Nat) (pn : pName) (tn : String)
    (htm : tm pn.name = some tn)
    (hwf : ∀ line ∈ filterRecsByType data tn, hasRelFieldsB pn line = true) :
    getAllRelatedItemsOfTypeJSON tm data id pn =
      .ok (matchedRelatingIds (filterRecsByType data tn) id pn) ∧
    getPropertyJSONNonRec tm data id pn =
      .ok ((matchedRelatingIds (filterRecsByType data tn) id pn).map (fetchRecO data)) ∧
    (∀ x, x ∈ matchedRelatingIds (filterRecsByType data tn) id pn ↔
       ∃ line, line ∈ filterRecsByType data tn ∧ isRelatedT id line pn = true ∧
         x ∈ getRelatedT line pn) ∧
    (∀ data', data.Perm data' →
       ∃ ids', getAllRelatedItemsOfTypeJSON tm data' id pn = .ok ids' ∧
         ids'.Perm (matchedRelatingIds (filterRecsByType data tn) id pn)) := by
  have hmain : getAllRelatedItemsOfTypeJSON tm data id pn =
      .ok (matchedRelatingIds (filterRecsByType data tn) id pn) := by
    unfold getAllRelatedItemsOfTypeJSON
    simp only [getAllItemsOfTypeJSONVerbose, htm, except_ok_bind]
    simpa using foldlM_relatedFoldBody id pn (filterRecsByType data tn) hwf []
  refine ⟨hmain, ?_, fun x => matchedRelatingIds_mem _ _ _ _, ?_⟩
  · unfold getPropertyJSONNonRec
    rw [hmain, except_ok_bind]
    rfl
  · intro data' hperm
    have hwf' : ∀ line ∈ filterRecsByType data' tn, hasRelFieldsB pn line = true := by
      intro line hline
      exact hwf line ((filterRecsByType_perm data data' tn hperm).mem_iff.mpr hline)
    have hmain' : getAllRelatedItemsOfTypeJSON tm data' id pn =
        .ok (matchedRelatingIds (filterRecsByType data' tn) id pn) := by
      unfold getAllRelatedItemsOfTypeJSON
      simp only [getAllItemsOfTypeJSONVerbose, htm, except_ok_bind]
      simpa using foldlM_relatedFoldBody id pn (filterRecsByType data' tn) hwf' []
    exact ⟨_, hmain',
      matchedRelatingIds_perm _ _ id pn (filterRecsByType_perm data' data tn hperm.symm)⟩

/-- Witness for claim C5 on the property-set fixture: wall 1 resolves to
property set 50, both as an id and as a fetched record, and the result
also comes out (up to permutation) of the reversed record table. -/
theorem getRelatedRecords_nonrecursive_set_witness :
    getAllRelatedItemsOfTypeJSON tmFix psetData 1 pPsets = .ok [some 50] ∧
    getPropertyJSONNonRec tmFix psetData 1 pPsets =
      .ok [[("type", JVal.str "IFCPROPERTYSET"),
            ("HasProperties", JVal.arr [JVal.tv 5 60])]] ∧
    ∃ ids', getAllRelatedItemsOfTypeJSON tmFix psetData.reverse 1 pPsets = .ok ids' ∧
      ids'.Perm (matchedRelatingIds
        (filterRecsByType psetData "IFCRELDEFINESBYPROPERTIES") 1 pPsets) := by
  have hwf : ∀ line ∈ filterRecsByType psetData "IFCRELDEFINESBYPROPERTIES",
      hasRelFieldsB pPsets line = true := by
    intro line hline
    rw [show filterRecsByType psetData "IFCRELDEFINESBYPROPERTIES" =
      [[("type", JVal.str "IFCRELDEFINESBYPROPERTIES"),
        ("RelatingPropertyDefinition", JVal.tv 5 50),
        ("RelatedObjects", JVal.arr [JVal.tv 5 1])]] from rfl] at hline
    simp at hline
    subst hline
    rfl
  have H := getRelatedRecords_nonrecursive_set tmFix psetData 1 pPsets
    "IFCRELDEFINESBYPROPERTIES" rfl hwf
  refine ⟨by rw [H.1]; rfl, by rw [H.2.1]; rfl, ?_⟩
  exact H.2.2.2 psetData.reverse (List.reverse_perm psetData).symm

theorem fetchRec_wf (data : List (Nat × JObj)) (h : wfDataB data = true) (i : Nat) :
    wfRecB (fetchRec data i) = true := by
  induction data with
  | nil => rfl
  | cons p rest ih =>
      obtain ⟨j, r⟩ := p
      unfold wfDataB at h
      rw [List.all_cons, Bool.and_eq_true] at h
      by_cases hj : j = i
      · simpa [fetchRec, hj] using h.1
      · simpa [fetchRec, hj] using ih h.2

theorem fetchRecO_wf (data : List (Nat × JObj)) (h : wfDataB data = true)
    (oid : Option Nat) :
    wfRecB (fetchRecO data oid) = true := by
  cases oid with
  | none => rfl
  | some i => exact fetchRec_wf data h i

theorem mapM_option_mem {α β : Type} (f : α → Option β) (l : List α) (l1 : List β)
    (h : l.mapM f = some l1) : ∀ b ∈ l1, ∃ a ∈ l, f a = some b := by
  induction l generalizing l1 with
  | nil =>
      rw [List.mapM_nil] at h
      obtain rfl := Option.some.inj h
      simp
  | cons a as ih =>
      rw [List.mapM_cons] at h
      cases hfa : f a with
      | none => rw [hfa, option_none_bind] at h; cases h
      | some b0 =>
          rw [hfa, option_some_bind] at h
          cases hrest : as.mapM f with
          | none => rw [hrest, option_none_bind] at h; cases h
          | some bs =>
              rw [hrest, option_some_bind, option_pure_eq_some] at h
              obtain rfl := Option.some.inj h
              intro b hb
              rcases List.mem_cons.mp hb with rfl | hb2
              · exact ⟨a, by simp, hfa⟩
              · obtain ⟨a2, ha2, hfa2⟩ := ih bs hrest b hb2
                exact ⟨a2, by simp [ha2], hfa2⟩

theorem expand_wf_expanded (data : List (Nat × JObj)) (hdata : wfDataB data = true) :
    ∀ n : Nat,
      (∀ o o1, wfRecB o = true → expandObjF data n o = some o1 →
         expandedObj o1 = true) ∧
      (∀ v v1, wfFieldVal v = true → expandFieldF data n v = some v1 →
         expandedVal v1 = true) ∧
      (∀ xs xs1, wfElems xs = true → expandElemsF data n xs = some xs1 →
         expandedElems xs1 = true) := by
  intro n
  induction n with
  | zero =>
      refine ⟨?_, ?_, ?_⟩ <;> intro a b _ hh <;>
        simp [expandObjF, expandFieldF, expandElemsF] at hh
  | succ n ih =>
      obtain ⟨ihO, ihF, ihE⟩ := ih
      refine ⟨?_, ?_, ?_⟩
      · intro o o1 hwf h
        cases o with
        | nil =>
            simp only [expandObjF] at h
            obtain rfl := Option.some.inj h
            rfl
        | cons kv rest =>
            obtain ⟨k, v⟩ := kv
            simp only [expandObjF] at h
            cases h1 : expandFieldF data n v with
            | none => rw [h1, option_none_bind] at h; cases h
            | some v1 =>
                rw [h1, option_some_bind] at h
                cases h2 : expandObjF data n rest with
                | none => rw [h2, option_none_bind] at h; cases h
                | some rest1 =>
                    rw [h2, option_some_bind, option_pure_eq_some] at h
                    obtain rfl := Option.some.inj h
                    unfold wfRecB at hwf
                    rw [List.all_cons, Bool.and_eq_true] at hwf
                    have hv1 := ihF v v1 hwf.1 h1
                    have hr1 := ihO rest rest1 (by simpa [wfRecB] using hwf.2) h2
                    simp [expandedObj, hv1, hr1]
      · intro v v1 hwf h
        cases v with
        | str s =>
            simp only [expandFieldF] at h
            obtain rfl := Option.some.inj h
            rfl
        | num m =>
            simp only [expandFieldF] at h
            obtain rfl := Option.some.inj h
            rfl
        | obj fs => simp [wfFieldVal] at hwf
        | arr xs =>
            simp only [expandFieldF] at h
            cases h1 : expandElemsF data n xs with
            | none => rw [h1, option_map_none] at h; cases h
            | some xs1 =>
                rw [h1, option_map_some] at h
                obtain rfl := Option.some.inj h
                have := ihE xs xs1 (by simpa [wfFieldVal] using hwf) h1
                simpa [expandedVal] using this
        | tv t w =>
            by_cases ht : t = 5
            · subst ht
              simp only [expandFieldF, if_pos rfl] at h
              cases h1 : expandObjF data n (fetchRec data w) with
              | none => rw [h1, option_map_none] at h; cases h
              | some o1 =>
                  rw [h1, option_map_some] at h
                  obtain rfl := Option.some.inj h
                  have := ihO (fetchRec data w) o1 (fetchRec_wf data hdata w) h1
                  simpa [expandedVal] using this
            · simp only [expandFieldF, if_neg ht] at h
              obtain rfl := Option.some.inj h
              simp [expandedVal, ht]
      · intro xs xs1 hwf h
        cases xs with
        | nil =>
            simp only [expandElemsF] at h
            obtain rfl := Option.some.inj h
            rfl
        | cons x rest =>
            unfold wfElems at hwf
            rw [List.all_cons, Bool.and_eq_true] at hwf
            simp only [expandElemsF] at h
            have hrest : ∀ rest1, expandElemsF data n rest = some rest1 →
                expandedElems rest1 = true :=
              fun rest1 hr => ihE rest rest1 (by simpa [wfElems] using hwf.2) hr
            cases x with
            | str s =>
                cases h2 : expandElemsF data n rest with
                | none => rw [h2] at h; cases h
                | some rest1 =>
                    rw [h2] at h
                    obtain rfl := Option.some.inj h
                    simp [expandedElems, isRefV, hrest rest1 h2]
            | num m =>
                cases h2 : expandElemsF data n rest with
                | none => rw [h2] at h; cases h
                | some rest1 =>
                    rw [h2] at h
                    obtain rfl := Option.some.inj h
                    simp [expandedElems, isRefV, hrest rest1 h2]
            | arr ys => simp [wfElemB] at hwf
            | obj fs => simp [wfElemB] at hwf
            | tv t w =>
                replace h : (if t = 5 then
                    (expandObjF data n (fetchRec data w)).map JVal.obj >>= fun y =>
                      expandElemsF data n rest >>= fun xs2 => pure (y :: xs2)
                  else
                    some (JVal.tv t w) >>= fun y =>
                      expandElemsF data n rest >>= fun xs2 => pure (y :: xs2)) =
                    some xs1 := h
                by_cases ht : t = 5
                · subst ht
                  rw [if_pos rfl] at h
                  cases h1 : expandObjF data n (fetchRec data w) with
                  | none => rw [h1, option_map_none, option_none_bind] at h; cases h
                  | some o1 =>
                      rw [h1, option_map_some, option_some_bind] at h
                      cases h2 : expandElemsF data n rest with
                      | none => rw [h2, option_none_bind] at h; cases h
                      | some rest1 =>
                          rw [h2, option_some_bind, option_pure_eq_some] at h
                          obtain rfl := Option.some.inj h
                          have ho := ihO (fetchRec data w) o1 (fetchRec_wf data hdata w) h1
                          simp [expandedElems, isRefV, ho, hrest rest1 h2]
                · rw [if_neg ht, option_some_bind] at h
                  cases h2 : expandElemsF data n rest with
                  | none => rw [h2, option_none_bind] at h; cases h
                  | some rest1 =>
                      rw [h2, option_some_bind, option_pure_eq_some] at h
                      obtain rfl := Option.some.inj h
                      simp [expandedElems, isRefV, ht, hrest rest1 h2]

theorem vsizeE_pos (v : JVal) : 1 ≤ vsizeE v := by
  cases v <;> simp [vsizeE] <;> omega

theorem osizeE_pos (o : JObj) : 1 ≤ osizeE o := by
  cases o with
  | nil => simp [osizeE]
  | cons kv rest => obtain ⟨k, v⟩ := kv; simp [osizeE]; omega

theorem expand_refFree_noop (data : List (Nat × JObj)) :
    ∀ n : Nat,
      (∀ o, wfRecB o = true → refFreeObj o = true → osizeE o ≤ n →
         expandObjF data n o = some o) ∧
      (∀ v, wfFieldVal v = true → refFreeVal v = true → vsizeE v ≤ n →
         expandFieldF data n v = some v) ∧
      (∀ xs, wfElems xs = true → xs.all (fun x => !isRefV x) = true →
         xs.length + 1 ≤ n → expandElemsF data n xs = some xs) := by
  intro n
  induction n with
  | zero =>
      refine ⟨?_, ?_, ?_⟩
      · intro o _ _ h3; exact absurd h3 (by have := osizeE_pos o; omega)
      · intro v _ _ h3; exact absurd h3 (by have := vsizeE_pos v; omega)
      · intro xs _ _ h3; exact absurd h3 (by omega)
  | succ n ih =>
      obtain ⟨ihO, ihF, ihE⟩ := ih
      refine ⟨?_, ?_, ?_⟩
      · intro o h1 h2 h3
        cases o with
        | nil => rfl
        | cons kv rest =>
            obtain ⟨k, v⟩ := kv
            unfold wfRecB at h1
            rw [List.all_cons, Bool.and_eq_true] at h1
            unfold refFreeObj at h2
            rw [List.all_cons, Bool.and_eq_true] at h2
            rw [osizeE] at h3
            have hv := vsizeE_pos v
            have ho := osizeE_pos rest
            simp only [expandObjF, ihF v h1.1 h2.1 (by omega), option_some_bind,
              ihO rest (by simpa [wfRecB] using h1.2)
                (by simpa [refFreeObj] using h2.2) (by omega),
              option_some_bind, option_pure_eq_some]
      · intro v h1 h2 h3
        cases v with
        | str s => rfl
        | num m => rfl
        | obj fs => simp [wfFieldVal] at h1
        | tv t w =>
            have ht : ¬ t = 5 := by simpa [refFreeVal] using h2
            simp [expandFieldF, ht]
        | arr xs =>
            rw [vsizeE] at h3
            simp only [expandFieldF,
              ihE xs (by simpa [wfFieldVal] using h1)
                (by simpa [refFreeVal] using h2) (by omega),
              option_map_some]
      · intro xs h1 h2 h3
        cases xs with
        | nil => rfl
        | cons x rest =>
            unfold wfElems at h1
            rw [List.all_cons, Bool.and_eq_true] at h1
            rw [List.all_cons, Bool.and_eq_true] at h2
            rw [List.length_cons] at h3
            have hrest := ihE rest (by simpa [wfElems] using h1.2) h2.2 (by omega)
            cases x with
            | str s =>
                show (pure (JVal.str s) >>= fun y =>
                    expandElemsF data n rest >>= fun xs2 => pure (y :: xs2)) =
                  some (JVal.str s :: rest)
                rw [option_pure_eq_some, option_some_bind, hrest, option_some_bind]
                rfl
            | num m =>
                show (pure (JVal.num m) >>= fun y =>
                    expandElemsF data n rest >>= fun xs2 => pure (y :: xs2)) =
                  some (JVal.num m :: rest)
                rw [option_pure_eq_some, option_some_bind, hrest, option_some_bind]
                rfl
            | arr ys => simp [wfElemB] at h1
            | obj fs => simp [wfElemB] at h1
            | tv t w =>
                have ht : ¬ t = 5 := by simpa [isRefV] using h2.1
                show (if t = 5 then
                    (expandObjF data n (fetchRec data w)).map JVal.obj >>= fun y =>
                      expandElemsF data n rest >>= fun xs2 => pure (y :: xs2)
                  else
                    some (JVal.tv t w) >>= fun y =>
                      expandElemsF data n rest >>= fun xs2 => pure (y :: xs2)) =
                  some (JVal.tv t w :: rest)
                rw [if_neg ht, option_some_bind, hrest, option_some_bind]
                rfl

/-- Claim C6: with recursive = true the resolver's results carry no
unexpanded reference-typed field (array fields are mapped element-wise
with each reference element resolved and recursed into, scalar reference
fields are replaced by the fetched record and recursed into), and the
recursive expansion of a record with no reference fields leaves it
unchanged. -/
theorem recursive_expansion_fully_expands (tm : TypesMap) (data : List (Nat × JObj))
    (id : Nat) (pn : pName) (fuel : Nat) (hdata : wfDataB data = true) :
    (∀ rs, getPropertyJSONRec tm data id pn fuel = .ok (some rs) →
       ∀ r ∈ rs, expandedObj r = true) ∧
    (∀ (r : JObj) (n : Nat), wfRecB r = true → refFreeObj r = true → osizeE r ≤ n →
       expandObjF data n r = some r) := by
  constructor
  · intro rs hrun r hr
    unfold getPropertyJSONRec at hrun
    cases hids : getAllRelatedItemsOfTypeJSON tm data id pn with
    | error e => rw [hids, except_error_bind] at hrun; cases hrun
    | ok ids =>
        rw [hids, except_ok_bind, except_pure_eq_ok] at hrun
        have hmapM := Except.ok.inj hrun
        obtain ⟨a, ha, hfa⟩ := mapM_option_mem (expandObjF data fuel) _ rs hmapM r hr
        obtain ⟨x, _, rfl⟩ := List.mem_map.mp ha
        exact (expand_wf_expanded data hdata fuel).1 _ r (fetchRecO_wf data hdata x) hfa
  · intro r n h1 h2 h3
    exact (expand_refFree_noop data n).1 r h1 h2 h3

/-- Witness for claim C6 on the property-set fixture: the resolved and
expanded property set of wall 1 carries no reference-typed field, and
expanding the reference-free wall record leaves it unchanged. -/
theorem recursive_expansion_fully_expands_witness :
    expandedObj [("type", JVal.str "IFCPROPERTYSET"),
      ("HasProperties", JVal.arr [JVal.obj
        [("type", JVal.str "IFCPROPERTYSINGLEVALUE"),
         ("NominalValue", JVal.num 3)]])] = true ∧
    expandObjF psetData 9 [("type", JVal.str "IFCWALL")] =
      some [("type", JVal.str "IFCWALL")] := by
  have H := recursive_expansion_fully_expands tmFix psetData 1 pPsets 10 rfl
  constructor
  · exact H.1 [[("type", JVal.str "IFCPROPERTYSET"),
      ("HasProperties", JVal.arr [JVal.obj
        [("type", JVal.str "IFCPROPERTYSINGLEVALUE"),
         ("NominalValue", JVal.num 3)]])]] rfl _ (by simp)
  · exact H.2 [("type", JVal.str "IFCWALL")] 9 rfl rfl (by decide)

theorem setItem_same (items : ItemsMap) (key : String) (e : MatEntry) :
    setItem items key e key = some e := by
  simp [setItem]

theorem setItem_other (items : ItemsMap) (key : String) (e : MatEntry) (q : String)
    (h : q ≠ key) :
    setItem items key e q = items q := by
  simp [setItem, h]

theorem saveGeometryByMaterial_other_key (items : ItemsMap) (f : Fragment)
    (step : Nat) (k : String) (hk : k ≠ colorKeyOf f.color) :
    saveGeometryByMaterial items f step k = items k := by
  unfold saveGeometryByMaterial
  cases h1 : items (colorKeyOf f.color) with
  | some e =>
      simp only [createMaterial, h1]
      cases h2 : e.geometries f.id <;> simp [h2, setItem, hk]
  | none =>
      simp only [createMaterial, h1, setItem_same]
      simp [setItem, hk]

theorem saveGeometryByMaterial_same_key_view (items : ItemsMap) (f : Fragment)
    (step : Nat) :
    (saveGeometryByMaterial items f step (colorKeyOf f.color)).map matView =
      some (match items (colorKeyOf f.color) with
            | some e => matView e
            | none => (mkMaterial f.color, step)) := by
  unfold saveGeometryByMaterial
  cases h1 : items (colorKeyOf f.color) with
  | some e =>
      simp only [createMaterial, h1]
      cases h2 : e.geometries f.id <;> simp [h2, setItem_same, matView]
  | none =>
      simp only [createMaterial, h1, setItem_same]
      simp [setItem_same, matView]

theorem processFragments_matView (fs : List Fragment) :
    ∀ (items : ItemsMap) (step : Nat) (k : String),
      ((processFragments items step fs) k).map matView =
        (match items k with
         | some e => some (matView e)
         | none => (firstWithKey fs k).map fun p => (mkMaterial p.2.color, step + p.1)) := by
  induction fs with
  | nil =>
      intro items step k
      cases h : items k <;> simp [processFragments, firstWithKey, h]
  | cons f fs ih =>
      intro items step k
      show ((processFragments (saveGeometryByMaterial items f step) (step + 1) fs) k).map
          matView = _
      rw [ih]
      by_cases hk : k = colorKeyOf f.color
      · subst hk
        have hview := saveGeometryByMaterial_same_key_view items f step
        cases hs : saveGeometryByMaterial items f step (colorKeyOf f.color) with
        | none => rw [hs] at hview; simp at hview
        | some e1 =>
            rw [hs, option_map_some] at hview
            have hv := Option.some.inj hview
            cases hi : items (colorKeyOf f.color) with
            | some e =>
                rw [hi] at hv
                simp [hv, firstWithKey]
            | none =>
                rw [hi] at hv
                simp [hv, firstWithKey]
      · rw [saveGeometryByMaterial_other_key items f step k hk]
        cases hi : items k with
        | some e => simp
        | none =>
            have hkc : ¬ colorKeyOf f.color = k := fun h => hk h.symm
            simp only [firstWithKey, hkc, if_false]
            cases hf : firstWithKey fs k with
            | none => simp
            | some p =>
                simp only [option_map_some, Option.map_map]
                simp [Function.comp]
                omega

/-- Claim C8: after processing any fragment sequence from an empty items
map, each colorKey present maps to exactly one material entry, whose
material was built from the first fragment carrying that colorKey and
whose creation step is that fragment's position -- later fragments with
the same key never recreate or replace it; keys with no fragment have no
entry. -/
theorem material_created_once_per_colorKey (fs : List Fragment) (k : String) :
    ((processFragments emptyItems 0 fs) k).map matView =
      (firstWithKey fs k).map (fun p => (mkMaterial p.2.color, p.1)) := by
  rw [processFragments_matView fs emptyItems 0 k]
  simp only [emptyItems]
  cases hf : firstWithKey fs k <;> simp [hf]

/-- Claim C9: processing two fragments with the same express id and the
same colorKey merges the second geometry into the first entry, and the
merged geometry's vertex count is exactly the sum of the two fragments'
vertex counts.  (The merge helper of BaseDefinitions is not under src;
it is modelled from the spec as buffer concatenation.) -/
theorem merge_vertex_count_sum (f1 f2 : Fragment)
    (hid : f2.id = f1.id) (hkey : colorKeyOf f2.color = colorKeyOf f1.color) :
    ∃ e g, processFragments emptyItems 0 [f1, f2] (colorKeyOf f1.color) = some e ∧
      e.geometries f1.id = some g ∧
      g.pos.length = f1.geom.pos.length + f2.geom.pos.length := by
  have hgeom : ((processFragments emptyItems 0 [f1, f2] (colorKeyOf f1.color)).bind
      fun e => e.geometries f1.id) =
      some (mergeGeom (storeGeometryAttribute f1.id f1.geom)
        (storeGeometryAttribute f1.id f2.geom)) := by
    simp [processFragments, saveGeometryByMaterial, createMaterial, emptyItems,
      setItem, hid, hkey]
  cases hp : processFragments emptyItems 0 [f1, f2] (colorKeyOf f1.color) with
  | none => rw [hp] at hgeom; simp at hgeom
  | some e =>
      rw [hp] at hgeom
      replace hgeom : e.geometries f1.id =
          some (mergeGeom (storeGeometryAttribute f1.id f1.geom)
            (storeGeometryAttribute f1.id f2.geom)) := hgeom
      exact ⟨e, _, rfl, hgeom, by simp [mergeGeom, storeGeometryAttribute]⟩

/-- Witness for claim C9 on two concrete fragments of three vertices
each: the merged geometry has six. -/
theorem merge_vertex_count_sum_witness :
    ∃ e g, processFragments emptyItems 0
        [⟨7, ⟨1, 0, 0, 1⟩, ⟨[100, 101, 102], []⟩⟩,
         ⟨7, ⟨1, 0, 0, 1⟩, ⟨[103, 104, 105], []⟩⟩]
        (colorKeyOf (⟨1, 0, 0, 1⟩ : IfcColor)) = some e ∧
      e.geometries 7 = some g ∧
      g.pos.length = ([100, 101, 102] : List Nat).length +
        ([103, 104, 105] : List Nat).length :=
  merge_vertex_count_sum ⟨7, ⟨1, 0, 0, 1⟩, ⟨[100, 101, 102], []⟩⟩
    ⟨7, ⟨1, 0, 0, 1⟩, ⟨[103, 104, 105], []⟩⟩ rfl rfl

end WebIfc
